import Mathlib

/-!
Shallow embedding of the logterm repository (architect-xyz/logterm).

Source files embedded:
  * src/server/src/parser.rs   — Span, SpanLabel, DisplayLine, DisplayLinesBuilder,
    parse_log_line (the header grammar `[` ISO-8601 level target `]`).
  * src/backend/src/main.rs    — QueryResponse::range, query, the websocket
    session cache in handle_ws.
  * src/backend/src/connection.rs — Context (tail state), Context::read_to,
    the notify watcher callback, handle_changed.

Modelling conventions:
  * Text is a list of grapheme clusters.  A cluster is atomic (the Rust code
    never splits inside one: unicode_segmentation::graphemes).  The ASCII
    space character is its own cluster (constructor `Grapheme.space`, display
    width 1, matching unicode_width); any other cluster carries its string
    content and its display width.  `str::width` is the sum of cluster widths.
  * Byte positions (u64 in Rust) are Nat; a cluster's byte length is the
    UTF-8 byte size of its content.
  * Fallible Rust code (anyhow::Result) is `Except String`; possibly
    non-terminating recursion (DisplayLinesBuilder::push_span) is fuel-indexed,
    `none` meaning the recursion did not finish within the given fuel.
  * A compiled regex is modelled by its find_iter function returning the
    ordered match ranges (as cluster index ranges); `is_match` is
    "find_iter is nonempty", as for a real regex.
-/

/-- One grapheme cluster.  `space` is the ASCII space (the only cluster
`str::split_once(" ")` breaks on); `other s w` is any other cluster with
content `s` and display width `w`. -/
inductive Grapheme where
  | space : Grapheme
  | other : String → Nat → Grapheme
deriving DecidableEq, Repr

/-- Display width of a cluster (unicode_width). -/
def gwidth : Grapheme → Nat
  | .space => 1
  | .other _ w => w

/-- UTF-8 byte length of a cluster (str::len). -/
def gbytes : Grapheme → Nat
  | .space => 1
  | .other s _ => s.utf8ByteSize

/-- Display width of a text: sum of cluster widths (UnicodeWidthStr::width). -/
def textWidth (t : List Grapheme) : Nat := (t.map gwidth).sum

/-- Byte length of a text (str::len). -/
def byteLen (t : List Grapheme) : Nat := (t.map gbytes).sum

/-- Build a text from an ASCII string, one cluster per character, width 1. -/
def asciiText (s : String) : List Grapheme :=
  s.toList.map (fun c => if c = ' ' then Grapheme.space else Grapheme.other (String.singleton c) 1)

/-- parser.rs SpanLabel. -/
inductive SpanLabel where
  | noise | timestamp | level | target | text | textMatch
deriving DecidableEq, Repr

/-- parser.rs Span. -/
structure Span where
  text : List Grapheme
  label : SpanLabel
deriving DecidableEq, Repr

/-- Span::noise. -/
def mkNoise (t : List Grapheme) : Span := ⟨t, .noise⟩

/-- Span::timestamp. -/
def mkTimestamp (t : List Grapheme) : Span := ⟨t, .timestamp⟩

/-- Span::level. -/
def mkLevel (t : List Grapheme) : Span := ⟨t, .level⟩

/-- Span::target. -/
def mkTarget (t : List Grapheme) : Span := ⟨t, .target⟩

/-- Span::text. -/
def mkText (t : List Grapheme) : Span := ⟨t, .text⟩

/-- Span::text_match. -/
def mkTextMatch (t : List Grapheme) : Span := ⟨t, .textMatch⟩

/-- Span::split_at (parser.rs:54-69): split after `width` grapheme clusters;
if `width` exceeds the cluster count return ("", whole); fail when the display
width of the left part exceeds `width`. -/
def splitAtG (s : Span) (width : Nat) : Except String (Span × Span) :=
  if width > s.text.length then
    .ok (⟨[], s.label⟩, s)
  else if textWidth (s.text.take width) > width then
    .error "impossible to break span"
  else
    .ok (⟨s.text.take width, s.label⟩, ⟨s.text.drop width, s.label⟩)

/-- str::split_once(" ") on a grapheme list: split at the first space cluster. -/
def splitFirstSpace : List Grapheme → Option (List Grapheme × List Grapheme)
  | [] => none
  | g :: tl =>
    if g = Grapheme.space then some ([], tl)
    else
      match splitFirstSpace tl with
      | none => none
      | some (l, r) => some (g :: l, r)

/-- Span::split_soft_once (parser.rs:71-78). -/
def splitSoftOnce (s : Span) : Option (Span × Span × Span) :=
  match splitFirstSpace s.text with
  | none => none
  | some (l, r) => some (⟨l, s.label⟩, ⟨[Grapheme.space], s.label⟩, ⟨r, s.label⟩)

/-- parser.rs DisplayLine (ts modelled as seconds-since-epoch Int, see tsConv). -/
structure DisplayLine where
  lln : Nat
  ll : Option Nat
  ts : Option Int
  spans : List Span
deriving DecidableEq, Repr

/-- parser.rs DisplayLinesBuilder state. -/
structure BState where
  lln : Nat
  ll : Option Nat
  ts : Option Int
  spans : List Span
  cumWidth : Nat
  lines : List DisplayLine
  cols : Nat
deriving DecidableEq, Repr

/-- DisplayLinesBuilder::new. -/
def initB (lln cols : Nat) : BState := ⟨lln, none, none, [], 0, [], cols⟩

/-- DisplayLinesBuilder::push_line (parser.rs:122-126): flush accumulated
spans into a new DisplayLine, reset the width counter. -/
def pushLine (st : BState) : BState :=
  { st with spans := [], cumWidth := 0,
            lines := st.lines ++ [⟨st.lln, st.ll, st.ts, st.spans⟩] }

/-- One unfolding of DisplayLinesBuilder::push_span (parser.rs:128-166), with
the recursive occurrences abstracted as `rec`. -/
def pushSpanF (rec : BState → Span → Option (Except String BState))
    (st : BState) (s : Span) : Option (Except String BState) :=
  if s.text.isEmpty then some (.ok st) else
  if st.cols < st.cumWidth + textWidth s.text then
    match splitSoftOnce s with
    | some (l, m, r) =>
      match rec st l with
      | some (.ok st1) =>
        match rec st1 m with
        | some (.ok st2) => rec st2 r
        | o => o
      | o => o
    | none =>
      if st.cols < textWidth s.text then
        match splitAtG s (st.cols - st.cumWidth) with
        | .error e => some (.error e)
        | .ok (l, r) =>
          if l.text.isEmpty then rec (pushLine st) r
          else rec (pushLine { st with spans := st.spans ++ [l] }) r
      else
        rec (pushLine st) s
  else
    if st.cumWidth + textWidth s.text = st.cols then
      some (.ok (pushLine
        { st with cumWidth := st.cumWidth + textWidth s.text, spans := st.spans ++ [s] }))
    else
      some (.ok { st with cumWidth := st.cumWidth + textWidth s.text, spans := st.spans ++ [s] })

/-- DisplayLinesBuilder::push_span, fuel-indexed: `none` means the recursion
did not complete within `fuel` nested calls (the Rust code would still be
recursing). -/
def pushSpan : Nat → BState → Span → Option (Except String BState)
  | 0, _, _ => none
  | fuel + 1, st, s => pushSpanF (pushSpan fuel) st s

/-- Push a list of spans in order, propagating errors and fuel exhaustion. -/
def pushList (fuel : Nat) : BState → List Span → Option (Except String BState)
  | st, [] => some (.ok st)
  | st, s :: rest =>
    match pushSpan fuel st s with
    | some (.ok st') => pushList fuel st' rest
    | o => o

/-- DisplayLinesBuilder::build (parser.rs:115-120). -/
def buildLines (st : BState) : List DisplayLine :=
  if st.spans.isEmpty then st.lines else (pushLine st).lines

/-! ## The header grammar of parse_log_line (parser.rs:170-210)

nom combinators over grapheme lists.  Each combinator returns the consumed
clusters (nom's `consumed`) and the rest, with consumed ++ rest = input. -/

/-- nom tag: match a literal. -/
def tagP (t : List Grapheme) (inp : List Grapheme) :
    Option (List Grapheme × List Grapheme) :=
  if inp.take t.length = t then some (inp.take t.length, inp.drop t.length) else none

/-- Whitespace as nom's multispace1 sees it (space, tab, CR, LF). -/
def isWsG : Grapheme → Bool
  | .space => true
  | .other s _ => s = "\t" || s = "\n" || s = "\r"

/-- nom multispace1: one or more whitespace clusters. -/
def multispace1P (inp : List Grapheme) :
    Option (List Grapheme × List Grapheme) :=
  if (inp.takeWhile isWsG).isEmpty then none
  else some (inp.takeWhile isWsG, inp.dropWhile isWsG)

/-- nom take_until for a one-cluster pattern: consume everything before its
first occurrence; fail when the pattern never occurs. -/
def takeUntilTag (g : Grapheme) (inp : List Grapheme) :
    Option (List Grapheme × List Grapheme) :=
  if (inp.dropWhile (fun x => !(x == g))).isEmpty then none
  else some (inp.takeWhile (fun x => !(x == g)), inp.dropWhile (fun x => !(x == g)))

/-- Literal clusters used by the grammar. -/
def lbG : Grapheme := .other "[" 1
def rbG : Grapheme := .other "]" 1
def dashG : Grapheme := .other "-" 1
def colonG : Grapheme := .other ":" 1
def tUpG : Grapheme := .other "T" 1
def zUpG : Grapheme := .other "Z" 1
def plusG : Grapheme := .other "+" 1
def nlG : Grapheme := .other "\n" 1
def crG : Grapheme := .other "\r" 1

/-- The log-level alternation (parser.rs:178-184): ERROR=0 WARN=1 INFO=2
DEBUG=3 TRACE=4, as nom `alt` of tags. -/
def levelP (inp : List Grapheme) : Option (List Grapheme × Nat × List Grapheme) :=
  match tagP (asciiText "ERROR") inp with
  | some (c, r) => some (c, 0, r)
  | none =>
  match tagP (asciiText "WARN") inp with
  | some (c, r) => some (c, 1, r)
  | none =>
  match tagP (asciiText "INFO") inp with
  | some (c, r) => some (c, 2, r)
  | none =>
  match tagP (asciiText "DEBUG") inp with
  | some (c, r) => some (c, 3, r)
  | none =>
  match tagP (asciiText "TRACE") inp with
  | some (c, r) => some (c, 4, r)
  | none => none

/-- Digit value of a cluster. -/
def gdigit : Grapheme → Option Nat
  | .space => none
  | .other s _ =>
    match s with
    | "0" => some 0 | "1" => some 1 | "2" => some 2 | "3" => some 3
    | "4" => some 4 | "5" => some 5 | "6" => some 6 | "7" => some 7
    | "8" => some 8 | "9" => some 9
    | _ => none

/-- Read exactly `n` digit clusters, most significant first. -/
def digitsAux (acc : Nat) : Nat → List Grapheme → Option (Nat × List Grapheme)
  | 0, inp => some (acc, inp)
  | _ + 1, [] => none
  | n + 1, g :: tl =>
    match gdigit g with
    | some d => digitsAux (acc * 10 + d) n tl
    | none => none

/-- Match one expected cluster. -/
def expectG (g : Grapheme) : List Grapheme → Option (List Grapheme)
  | [] => none
  | x :: tl => if x == g then some tl else none

/-- The fields of a parsed ISO-8601 datetime (iso8601::DateTime before
conversion to chrono); offMin is the zone offset in minutes. -/
structure DT where
  year : Nat
  month : Nat
  day : Nat
  hour : Nat
  minute : Nat
  second : Nat
  offMin : Int
deriving DecidableEq, Repr

/-- Models the external iso8601 crate's parse_datetime, restricted to the
extended calendar form YYYY-MM-DDTHH:MM:SS with zone Z or ±HH:MM, performing
the crate's syntactic field checks (month 1..12, day 1..31, hour ≤ 24,
minute ≤ 59, second ≤ 60).  Returns the value and the unconsumed rest. -/
def parseDatetimeRaw (inp : List Grapheme) : Option (DT × List Grapheme) :=
  match digitsAux 0 4 inp with
  | none => none
  | some (y, r1) =>
  match expectG dashG r1 with
  | none => none
  | some r2 =>
  match digitsAux 0 2 r2 with
  | none => none
  | some (mo, r3) =>
  if mo < 1 || 12 < mo then none else
  match expectG dashG r3 with
  | none => none
  | some r4 =>
  match digitsAux 0 2 r4 with
  | none => none
  | some (d, r5) =>
  if d < 1 || 31 < d then none else
  match expectG tUpG r5 with
  | none => none
  | some r6 =>
  match digitsAux 0 2 r6 with
  | none => none
  | some (h, r7) =>
  if 24 < h then none else
  match expectG colonG r7 with
  | none => none
  | some r8 =>
  match digitsAux 0 2 r8 with
  | none => none
  | some (mi, r9) =>
  if 59 < mi then none else
  match expectG colonG r9 with
  | none => none
  | some r10 =>
  match digitsAux 0 2 r10 with
  | none => none
  | some (s, r11) =>
  if 60 < s then none else
  match r11 with
  | [] => none
  | z :: tl =>
    if z == zUpG then some (⟨y, mo, d, h, mi, s, 0⟩, tl)
    else if z == plusG || z == dashG then
      match digitsAux 0 2 tl with
      | none => none
      | some (oh, s1) =>
      match expectG colonG s1 with
      | none => none
      | some s2 =>
      match digitsAux 0 2 s2 with
      | none => none
      | some (om, s3) =>
        let mins : Int := Int.ofNat (oh * 60 + om)
        some (⟨y, mo, d, h, mi, s, if z == plusG then mins else -mins⟩, s3)
    else none

/-- nom consumed(parse_datetime): the consumed clusters, the value, the rest.
parseDatetimeRaw consumes strictly left to right, so its rest is always the
final segment of the input; consumed and rest are expressed as the
corresponding take/drop. -/
def parseDatetime (inp : List Grapheme) :
    Option (List Grapheme × DT × List Grapheme) :=
  match parseDatetimeRaw inp with
  | none => none
  | some (dt, rest) =>
    some (inp.take (inp.length - rest.length), dt, inp.drop (inp.length - rest.length))

/-- True in leap years (proleptic Gregorian). -/
def leapYear (y : Nat) : Bool := (y % 4 == 0 && y % 100 != 0) || y % 400 == 0

/-- Days in a month. -/
def daysInMonth (y m : Nat) : Nat :=
  match m with
  | 1 => 31 | 2 => if leapYear y then 29 else 28 | 3 => 31 | 4 => 30
  | 5 => 31 | 6 => 30 | 7 => 31 | 8 => 31 | 9 => 30 | 10 => 31
  | 11 => 30 | 12 => 31
  | _ => 0

/-- Days before month `m` in year `y`. -/
def daysBeforeMonth (y m : Nat) : Nat :=
  ((List.range m).filter (fun k => 1 ≤ k)).foldl (fun acc k => acc + daysInMonth y k) 0

/-- Seconds since 0001-01-01 00:00:00 UTC of a DT, after applying its zone
offset (chrono's with_timezone(&Utc) normalization). -/
def utcSecs (dt : DT) : Int :=
  let days : Nat := 365 * (dt.year - 1) + (dt.year - 1) / 4 - (dt.year - 1) / 100
    + (dt.year - 1) / 400 + daysBeforeMonth dt.year dt.month + (dt.day - 1)
  Int.ofNat (days * 86400 + dt.hour * 3600 + dt.minute * 60 + dt.second) - dt.offMin * 60

/-- Models chrono's TryFrom<iso8601::DateTime>: the conversion at
parser.rs:196-197 (`ts.1.try_into()`), which fails when the fields do not
form a real calendar instant (e.g. February 30). -/
def tsConv (dt : DT) : Option Int :=
  if 1 ≤ dt.month ∧ dt.month ≤ 12 ∧ 1 ≤ dt.day ∧ dt.day ≤ daysInMonth dt.year dt.month
      ∧ dt.hour ≤ 23 ∧ dt.minute ≤ 59 ∧ dt.second ≤ 59 then
    some (utcSecs dt)
  else none

/-- The pieces of a matched header (the seven `consumed` fragments of the nom
tuple at parser.rs:185-193, the level code and the raw datetime). -/
structure Header where
  lb : List Grapheme
  tsc : List Grapheme
  w1 : List Grapheme
  llc : List Grapheme
  w2 : List Grapheme
  tgt : List Grapheme
  rb : List Grapheme
  levelCode : Nat
  dt : DT
deriving DecidableEq, Repr

/-- The nom tuple at parser.rs:185-193: `[` datetime ws level ws target `]`. -/
def headerParse (line : List Grapheme) : Option (Header × List Grapheme) :=
  match tagP [lbG] line with
  | none => none
  | some (lb, r1) =>
  match parseDatetime r1 with
  | none => none
  | some (tsc, dt, r2) =>
  match multispace1P r2 with
  | none => none
  | some (w1, r3) =>
  match levelP r3 with
  | none => none
  | some (llc, code, r4) =>
  match multispace1P r4 with
  | none => none
  | some (w2, r5) =>
  match takeUntilTag rbG r5 with
  | none => none
  | some (tgt, r6) =>
  match tagP [rbG] r6 with
  | none => none
  | some (rb, rem) => some (⟨lb, tsc, w1, llc, w2, tgt, rb, code, dt⟩, rem)

/-- The seven header spans pushed at parser.rs:200-206, in order. -/
def headerSpans (h : Header) : List Span :=
  [mkNoise h.lb, mkTimestamp h.tsc, mkNoise h.w1, mkLevel h.llc,
   mkNoise h.w2, mkTarget h.tgt, mkNoise h.rb]

/-- A compiled regex, modelled by its find_iter: the ordered, disjoint match
ranges (as half-open cluster index ranges) in a text.  is_match is
"find_iter is nonempty". -/
def RegexM : Type := List Grapheme → List (Nat × Nat)

/-- rem[a..b] as used in the filter branch (parser.rs:223-228). -/
def sliceT (l : List Grapheme) (a b : Nat) : List Grapheme := (l.take b).drop a

/-- The Text/TextMatch spans produced by the filter loop (parser.rs:217-229):
gap before each match, the match, and the tail gap when nonempty. -/
def matchSpans (rem : List Grapheme) (last : Nat) : List (Nat × Nat) → List Span
  | [] => if last < rem.length then [mkText (rem.drop last)] else []
  | (s, e) :: tl => mkText (sliceT rem last s) :: mkTextMatch (sliceT rem s e) :: matchSpans rem e tl

/-- The part of parse_log_line after the header attempt (parser.rs:211-235):
filter gating, residual-text spans, build. -/
def contF (fuel : Nat) (filter : Option RegexM) (st : BState) (rem : List Grapheme) :
    Option (Except String (Option (List DisplayLine))) :=
  match filter with
  | some f =>
    if (f rem).isEmpty then some (.ok none)
    else
      match pushList fuel st (matchSpans rem 0 (f rem)) with
      | some (.ok st') => some (.ok (some (buildLines st')))
      | some (.error e) => some (.error e)
      | none => none
  | none =>
    match pushSpan fuel st (mkText rem) with
    | some (.ok st') => some (.ok (some (buildLines st')))
    | some (.error e) => some (.error e)
    | none => none

/-- parse_log_line (parser.rs:170-236).  `none` = the builder recursion did
not finish within `fuel`; `some (.error e)` = the Rust function returns Err;
`some (.ok none)` = Ok(None), the filter suppressed the line;
`some (.ok (some rows))` = Ok(Some(rows)). -/
def parseLogLine (fuel lln cols : Nat) (line : List Grapheme) (filter : Option RegexM) :
    Option (Except String (Option (List DisplayLine))) :=
  match headerParse line with
  | none => contF fuel filter (initB lln cols) line
  | some (h, rem) =>
    match tsConv h.dt with
    | none => some (.error "ts conv")
    | some t =>
      match pushList fuel { initB lln cols with ll := some h.levelCode, ts := some t } (headerSpans h) with
      | some (.ok st1) => contF fuel filter st1 rem
      | some (.error e) => some (.error e)
      | none => none

/-! ## backend/src/main.rs: QueryResponse, query, the session cache -/

/-- backend/src/main.rs QueryResponse. -/
structure QueryResponse where
  total_display_lines : Nat
  display_lines : List DisplayLine
  row_offset : Nat
deriving DecidableEq, Repr

/-- QueryResponse::range (main.rs:72-83).  Rust clamps both endpoints to the
stored row count and then slices display_lines[start..end]; that slice
panics when start > end, modelled as `none`. -/
def rangeModel (r : QueryResponse) (a b : Nat) : Option QueryResponse :=
  if min a r.display_lines.length ≤ min b r.display_lines.length then
    some ⟨r.total_display_lines,
      (r.display_lines.take (min b r.display_lines.length)).drop
        (min a r.display_lines.length),
      min a r.display_lines.length⟩
  else none

/-- The scan loop of query (main.rs:141-149): parse each line with its index,
propagate parse errors with `?`, count and concatenate the produced rows. -/
def queryGo (fuel cols : Nat) (filter : Option RegexM) :
    Nat → List (List Grapheme) → List DisplayLine → Nat →
    Option (Except String QueryResponse)
  | _, [], acc, total => some (.ok ⟨total, acc, 0⟩)
  | lln, l :: rest, acc, total =>
    match parseLogLine fuel lln cols l filter with
    | none => none
    | some (.error e) => some (.error e)
    | some (.ok none) => queryGo fuel cols filter (lln + 1) rest acc total
    | some (.ok (some p)) => queryGo fuel cols filter (lln + 1) rest (acc ++ p) (total + p.length)

/-- query (main.rs:135-152) over an already-opened file given as its list of
lines (BufReader::lines), with an already-compiled filter. -/
def queryModel (fuel cols : Nat) (filter : Option RegexM) (fileLines : List (List Grapheme)) :
    Option (Except String QueryResponse) :=
  queryGo fuel cols filter 0 fileLines [] 0

/-- The fields of QueryArgs that the websocket session sees (main.rs:46-57).
fromRow/toRow are the `from`/`to` row range. -/
structure QueryArgsM where
  cols : Nat
  filter : Option String
  log_file : String
  fromRow : Nat
  toRow : Option Nat
deriving DecidableEq, Repr

/-- One query request processed by handle_ws (main.rs:171-204), with the file
scan abstracted as `scan`.  Returns (number of file scans performed, the
response sent — `none` when the range slice panics —, the new cache).
A cache entry matching on (cols, filter, log_file) is re-ranged without
scanning and without mutating the cache; otherwise a fresh scan replaces
the cache (main.rs:176-196).  `scanBranch` is the no-cache-hit path
(main.rs:192-202). -/
def scanBranch (scan : QueryArgsM → QueryResponse) (q : QueryArgsM) :
    Nat × Option QueryResponse × Option (QueryArgsM × QueryResponse) :=
  (1, rangeModel (scan q) q.fromRow (q.toRow.getD (scan q).total_display_lines),
   some (q, scan q))

def stepQuery (scan : QueryArgsM → QueryResponse)
    (cache : Option (QueryArgsM × QueryResponse)) (q : QueryArgsM) :
    Nat × Option QueryResponse × Option (QueryArgsM × QueryResponse) :=
  match cache with
  | some (lq, lr) =>
    if q.cols = lq.cols ∧ q.filter = lq.filter ∧ q.log_file = lq.log_file then
      (0, rangeModel lr q.fromRow (q.toRow.getD lr.total_display_lines), some (lq, lr))
    else scanBranch scan q
  | none => scanBranch scan q

/-! ## backend/src/connection.rs: the tail context and session loop -/

/-- connection.rs Context (the tail state): columns, compiled filter, read
cursor `pos` (u64), logical lines read. -/
structure TailCtx where
  cols : Nat
  filter : Option RegexM
  pos : Nat
  linesRead : Nat

/-- Seek to byte offset `n` in a decoded file and return the remaining
content (File::seek + read_to_string).  Seeking into the middle of a
multi-byte cluster makes the subsequent read invalid UTF-8 (`none` =
that read error); seeking at or past EOF reads nothing. -/
def byteDrop : Nat → List Grapheme → Option (List Grapheme)
  | 0, l => some l
  | _ + 1, [] => some []
  | n + 1, g :: tl =>
    if gbytes g ≤ n + 1 then byteDrop (n + 1 - gbytes g) tl else none

/-- str::split_inclusive("\n"): segments each keeping their terminator, the
last one possibly unterminated; the empty string yields no segments. -/
def splitIncAux (acc : List Grapheme) : List Grapheme → List (List Grapheme)
  | [] => if acc.isEmpty then [] else [acc]
  | g :: tl =>
    if g = nlG then (acc ++ [g]) :: splitIncAux [] tl
    else splitIncAux (acc ++ [g]) tl

/-- str::split_inclusive("\n") from the start. -/
def splitInclusiveNl (l : List Grapheme) : List (List Grapheme) := splitIncAux [] l

/-- str::trim_end_matches(g): drop every trailing `g` cluster. -/
def dropTrailing (g : Grapheme) (l : List Grapheme) : List Grapheme :=
  (l.reverse.dropWhile (fun x => x == g)).reverse

/-- The segment loop of Context::read_to (connection.rs:92-108): stop at the
first unterminated segment; strip the terminator and trailing CRs; feed the
line through parse_log_line, IGNORING its errors (`if let Ok(Some(p))`);
advance `pos` by the TRIMMED line's byte length (the code reads
`self.pos += line.len()` after `line` was rebound to the trimmed text) and
`lines_read` by one. -/
def processSegs (fuel : Nat) : TailCtx → List (List Grapheme) → List DisplayLine →
    Option (Except String (TailCtx × List DisplayLine))
  | ctx, [], acc => some (.ok (ctx, acc))
  | ctx, seg :: rest, acc =>
    if seg.getLast? ≠ some nlG then some (.ok (ctx, acc))
    else
      let t := dropTrailing crG (dropTrailing nlG seg)
      match parseLogLine fuel ctx.linesRead ctx.cols t ctx.filter with
      | none => none
      | some r =>
        let acc' := match r with
          | .ok (some p) => acc ++ p
          | _ => acc
        processSegs fuel
          { ctx with pos := ctx.pos + byteLen t, linesRead := ctx.linesRead + 1 }
          rest acc'

/-- Context::read_to (connection.rs:81-110).  `file` is the file's decoded
content at the moment of the read; `len` the notified length.  If
pos ≥ len nothing happens; otherwise reopen, seek to pos, read to EOF and
process the complete lines. -/
def readTo (fuel : Nat) (ctx : TailCtx) (file : List Grapheme) (len : Nat) :
    Option (Except String (TailCtx × List DisplayLine)) :=
  if len ≤ ctx.pos then some (.ok (ctx, []))
  else
    match byteDrop ctx.pos file with
    | none => some (.error "stream did not contain valid UTF-8")
    | some contents => processSegs fuel ctx (splitInclusiveNl contents) []

/-- The filesystem events the notify watcher callback distinguishes
(connection.rs:52-74). -/
inductive NotifyEvent where
  | modifyData (len : Nat)
  | modifyName
  | removed
  | otherEv
  | watchErr
deriving DecidableEq, Repr

/-- The watcher callback (connection.rs:52-74): the value it publishes into
the watch channel, if any.  Only a data modification publishes (the new
metadata length); renames, removals, other events and watch errors are
merely logged and publish nothing. -/
def watcherStep : NotifyEvent → Option (Option Nat)
  | .modifyData len => some (some len)
  | _ => none

/-- A server-initiated notification (json_rpc.rs Method::Tail / Method::Done). -/
inductive Notif where
  | tailN (lines : List DisplayLine)
  | doneN
deriving Repr

/-- handle_changed (connection.rs:145-169): a Some(len) value triggers an
incremental read and a `tail` notification; a None value sends `done`.
The context is not dropped or marked inert in either case. -/
def handleChanged (fuel : Nat) (ctx : TailCtx) (file : List Grapheme)
    (changed : Option Nat) : Option (Except String (TailCtx × Notif)) :=
  match changed with
  | some len =>
    match readTo fuel ctx file len with
    | none => none
    | some (.error e) => some (.error e)
    | some (.ok (ctx', inc)) => some (.ok (ctx', Notif.tailN inc))
  | none => some (.ok (ctx, Notif.doneN))

/-- The notification half of the handle_ws select loop (connection.rs:174-188):
process a sequence of delivered channel values in order, each paired with the
file's content at that moment, collecting the notifications sent. -/
def processChanges (fuel : Nat) : TailCtx → List (List Grapheme × Option Nat) →
    List Notif → Option (Except String (TailCtx × List Notif))
  | ctx, [], acc => some (.ok (ctx, acc))
  | ctx, (file, ch) :: rest, acc =>
    match handleChanged fuel ctx file ch with
    | none => none
    | some (.error e) => some (.error e)
    | some (.ok (ctx', n)) => processChanges fuel ctx' rest (acc ++ [n])

/-! ## Width and round-trip invariants of the builder -/

/-- Total display width of a list of spans. -/
def spansWidth (l : List Span) : Nat := (l.map (fun s => textWidth s.text)).sum

/-- Concatenated text of the pending (unflushed) spans of a builder. -/
def pendText (st : BState) : List Grapheme := (st.spans.map (fun s => s.text)).flatten

/-- Concatenated text of one display line's spans. -/
def rowText (dl : DisplayLine) : List Grapheme := (dl.spans.map (fun s => s.text)).flatten

/-- Concatenated text of a list of display lines. -/
def rowsText (ls : List DisplayLine) : List Grapheme := (ls.map rowText).flatten

/-- All text a builder has absorbed: flushed rows then pending spans. -/
def allText (st : BState) : List Grapheme := rowsText st.lines ++ pendText st

/-- The builder invariant: the width counter equals the pending spans' width
and stays within the column budget, and every flushed row fits the budget. -/
def BInv (st : BState) : Prop :=
  st.cumWidth = spansWidth st.spans ∧ st.cumWidth ≤ st.cols ∧
  ∀ dl ∈ st.lines, spansWidth dl.spans ≤ st.cols

/-! ## Claim theorems -/

/-- C1: the spec's two-step tail scenario on a file growing "abc\n" then
"abc\ndef\n".  The code advances byte_position only by each TRIMMED segment's
length (3, not 4): after the first step pos = 3 (mid-line, on the
terminator), so the second step re-reads the terminator as a phantom empty
logical line; the reads end with byte_position 6 (not 8) and
logical_lines_read 3 (not 2), and "def" is numbered logical line 2 (not 1).
The displayed rows are "abc" then "def", but not via the claimed
byte-accounting, and three logical lines are consumed, not two. -/
theorem c1_tail_two_steps_eval :
    readTo 32 ⟨80, none, 0, 0⟩ (asciiText "abc\n") 4 =
      some (.ok (⟨80, none, 3, 1⟩, [⟨0, none, none, [mkText (asciiText "abc")]⟩])) ∧
    readTo 32 ⟨80, none, 3, 1⟩ (asciiText "abc\ndef\n") 8 =
      some (.ok (⟨80, none, 6, 3⟩, [⟨2, none, none, [mkText (asciiText "def")]⟩])) := by
  exact ⟨rfl, rfl⟩

/-- C2: on file removal the watcher callback publishes nothing into the
channel (it only logs), so the session can never emit the `done`
notification for a removal; and even when a `None` is delivered, the context
stays attached: a subsequent length value still produces a `tail`
notification after `done`. -/
theorem c2_removal_no_done_then_tail_eval :
    watcherStep NotifyEvent.removed = none ∧
    processChanges 32 ⟨5, none, 0, 0⟩
        [(asciiText "hi\n", none), (asciiText "hi\n", some 3)] [] =
      some (.ok (⟨5, none, 2, 1⟩,
        [Notif.doneN, Notif.tailN [⟨0, none, none, [mkText (asciiText "hi")]⟩]])) := by
  exact ⟨rfl, rfl⟩

/-- C8: growth steps "ab\ncd\n" (len 6) then "ab\ncd\nef\n" (len 9).  Because
pos advances only by trimmed lengths, after the first step pos = 4 while the
two consumed segments really span bytes [0,6); the second step re-reads byte
4 ('d', already parsed inside logical line "cd") as a new logical line "d".
A byte range of the file contributes to two different parsed logical lines
(pos and lines_read are nevertheless non-decreasing). -/
theorem c8_byte_reparsed_eval :
    readTo 32 ⟨80, none, 0, 0⟩ (asciiText "ab\ncd\n") 6 =
      some (.ok (⟨80, none, 4, 2⟩,
        [⟨0, none, none, [mkText (asciiText "ab")]⟩,
         ⟨1, none, none, [mkText (asciiText "cd")]⟩])) ∧
    readTo 32 ⟨80, none, 4, 2⟩ (asciiText "ab\ncd\nef\n") 9 =
      some (.ok (⟨80, none, 7, 4⟩,
        [⟨2, none, none, [mkText (asciiText "d")]⟩,
         ⟨3, none, none, [mkText (asciiText "ef")]⟩])) := by
  exact ⟨rfl, rfl⟩

/-- Helper for C4: with cols = 0 and an empty current row, pushing a
one-cluster width-1 span never returns at any recursion depth: the hard
break yields ("", same span), an empty row is flushed and the identical
push recurses. -/
theorem pushSpan_cols_zero_aux (fuel : Nat) :
    ∀ st : BState, st.cols = 0 → st.cumWidth = 0 →
      pushSpan fuel st (Span.mk [Grapheme.other "a" 1] SpanLabel.text) = none := by
  induction fuel with
  | zero => intro st _ _; rfl
  | succ fuel ih =>
    intro st h0 hcw
    show pushSpanF (pushSpan fuel) st _ = none
    unfold pushSpanF
    simp only [h0, hcw, splitSoftOnce, splitFirstSpace, splitAtG, textWidth,
      gwidth, List.map, List.sum_cons, List.sum_nil, List.isEmpty, List.take,
      List.drop, List.length]
    norm_num
    exact ih (pushLine st) (by simp [pushLine, h0]) (by simp [pushLine])

/-- Helper for C4: cols = 4 with a span of three width-2 unbreakable clusters
(total width 6 > 4, but only 3 clusters, fewer than the 4 requested by the
hard break) also recurses forever: split_at returns ("", whole), an empty
row is flushed, and the same span is re-pushed against an identical state. -/
theorem pushSpan_wide_aux (fuel : Nat) :
    ∀ st : BState, st.cols = 4 → st.cumWidth = 0 →
      pushSpan fuel st (Span.mk
        [Grapheme.other "字" 2, Grapheme.other "字" 2, Grapheme.other "字" 2]
        SpanLabel.text) = none := by
  induction fuel with
  | zero => intro st _ _; rfl
  | succ fuel ih =>
    intro st h0 hcw
    show pushSpanF (pushSpan fuel) st _ = none
    unfold pushSpanF
    simp only [h0, hcw, splitSoftOnce, splitFirstSpace, splitAtG, textWidth,
      gwidth, List.map, List.sum_cons, List.sum_nil, List.isEmpty, List.take,
      List.drop, List.length]
    norm_num
    exact ih (pushLine st) (by simp [pushLine, h0]) (by simp [pushLine])

/-- C4: push_span does NOT fail fast on an unsatisfiable column width and its
recursion depth is NOT bounded by the span's grapheme count: with cols = 0
and the one-cluster span "a" it recurses unboundedly (no result at any
fuel), and even with cols = 4 the three-cluster span "字字字" recurses
unboundedly instead of erroring. -/
theorem c4_push_span_unbounded_recursion :
    (∀ fuel, pushSpan fuel (initB 0 0)
        (Span.mk [Grapheme.other "a" 1] SpanLabel.text) = none) ∧
    (∀ fuel, pushSpan fuel (initB 0 4)
        (Span.mk [Grapheme.other "字" 2, Grapheme.other "字" 2, Grapheme.other "字" 2]
          SpanLabel.text) = none) :=
  ⟨fun fuel => pushSpan_cols_zero_aux fuel _ rfl rfl,
   fun fuel => pushSpan_wide_aux fuel _ rfl rfl⟩

/-- Re-ranging never changes total_display_lines (main.rs:77-81 copies it). -/
theorem rangeModel_total (r : QueryResponse) (a b : Nat) (x : QueryResponse)
    (h : rangeModel r a b = some x) :
    x.total_display_lines = r.total_display_lines := by
  unfold rangeModel at h
  split at h
  · injection h with h'
    rw [← h']
  · cases h

/-- C5 counterexample: ranging a one-row stored result with from = 1,
to = 0 hits the panicking slice display_lines[1..0] (both endpoints are
within bounds after clamping, but start > end). -/
theorem c5_range_panic_counterexample :
    rangeModel ⟨1, [⟨0, none, none, [mkText [Grapheme.other "x" 1]]⟩], 0⟩ 1 0 = none := by
  rfl

/-- C5 amended: for every stored QueryResult and every half-open row range
with from ≤ to (to defaulting upstream to the full count), re-ranging
returns without failure the contiguous sub-sequence between the two
endpoints clamped to the stored row count, and the returned row_offset is
the clamped start; when from > to the slice panics. -/
theorem c5_range_clamped (r : QueryResponse) (a b : Nat) (hab : a ≤ b) :
    ∃ r', rangeModel r a b = some r' ∧
      r'.row_offset = min a r.display_lines.length ∧
      r'.total_display_lines = r.total_display_lines ∧
      r'.display_lines = (r.display_lines.drop (min a r.display_lines.length)).take
        (min b r.display_lines.length - min a r.display_lines.length) := by
  have hse : min a r.display_lines.length ≤ min b r.display_lines.length :=
    min_le_min hab (le_refl _)
  refine ⟨⟨r.total_display_lines,
    (r.display_lines.take (min b r.display_lines.length)).drop
      (min a r.display_lines.length),
    min a r.display_lines.length⟩, ?_, rfl, rfl, ?_⟩
  · unfold rangeModel
    rw [if_pos hse]
  · exact List.drop_take _ _ _

/-- C5 witness: the amended range theorem at a concrete two-row result with
from = 1, to = 3. -/
theorem c5_range_clamped_witness :
    (1 ≤ 3) ∧
    ∃ r', rangeModel ⟨2, [⟨0, none, none, []⟩, ⟨1, none, none, []⟩], 0⟩ 1 3 = some r' ∧
      r'.row_offset = min 1 2 ∧
      r'.total_display_lines = 2 ∧
      r'.display_lines = ([⟨0, none, none, []⟩, (⟨1, none, none, []⟩ : DisplayLine)].drop (min 1 2)).take
        (min 3 2 - min 1 2) :=
  ⟨by decide, c5_range_clamped ⟨2, [⟨0, none, none, []⟩, ⟨1, none, none, []⟩], 0⟩ 1 3 (by decide)⟩

/-- C3 counterexample: the line "[2024-02-30T00:00:00Z INFO x] hi" matches
the header grammar but February 30 fails conversion, so parse_log_line
errors; yet the tail's incremental read returns Ok with the line's output
silently dropped (connection.rs:98 `if let Ok(Some(p))` discards the Err),
not an error as the claim states. -/
theorem c3_tail_swallows_counterexample :
    parseLogLine 9 0 80 (asciiText "[2024-02-30T00:00:00Z INFO x] hi") none =
      some (.error "ts conv") ∧
    readTo 9 ⟨80, none, 0, 0⟩ (asciiText "[2024-02-30T00:00:00Z INFO x] hi\n") 33 =
      some (.ok (⟨80, none, 32, 1⟩, [])) :=
  ⟨rfl, rfl⟩

/-- C3 amended: a line matching the header grammar whose timestamp fails
conversion aborts the whole one-shot query with an error (main.rs:144 `?`),
but the tail's incremental read does NOT error: it skips the line's output
while still advancing the read position and line counter
(connection.rs:98-107). -/
theorem c3_ts_conv_query_aborts_tail_skips
    (fuel cols : Nat) (line : List Grapheme) (h : Header) (rem : List Grapheme)
    (hhdr : headerParse line = some (h, rem))
    (hconv : tsConv h.dt = none)
    (hsplit : splitInclusiveNl (line ++ [nlG]) = [line ++ [nlG]])
    (htrim : dropTrailing crG (dropTrailing nlG (line ++ [nlG])) = line) :
    (∀ rest, queryModel fuel cols none (line :: rest) = some (.error "ts conv")) ∧
    readTo fuel ⟨cols, none, 0, 0⟩ (line ++ [nlG]) (byteLen line + 1) =
      some (.ok (⟨cols, none, byteLen line, 1⟩, [])) := by
  have hparse : ∀ lln, parseLogLine fuel lln cols line none = some (.error "ts conv") := by
    intro lln
    unfold parseLogLine
    simp only [hhdr, hconv]
  constructor
  · intro rest
    unfold queryModel queryGo
    simp only [hparse 0]
  · have hbd : byteDrop 0 (line ++ [nlG]) = some (line ++ [nlG]) := by
      cases line <;> rfl
    unfold readTo
    rw [if_neg (Nat.not_succ_le_zero (byteLen line))]
    simp only [hbd]
    rw [hsplit]
    simp only [processSegs, List.getLast?_concat]
    rw [if_neg (by simp)]
    rw [htrim]
    simp only [hparse]
    simp [processSegs]

/-- C10: an empty input line with no filter yields Ok(Some([])) — zero
display rows — and a file consisting of one blank line produces a
QueryResult with total_display_lines = 0. -/
theorem c10_empty_line_zero_rows (fuel lln cols : Nat) :
    parseLogLine (fuel + 1) lln cols [] none = some (.ok (some [])) ∧
    queryModel (fuel + 1) cols none [[]] = some (.ok ⟨0, [], 0⟩) :=
  ⟨rfl, rfl⟩




/-- C9: if some query produced a response and left cache entry (lq, lr), a
second request equal to the first in (cols, filter, log_file) triggers zero
file scans, gets exactly the cached result re-ranged to its own row range,
leaves the cache untouched, and the cached total_display_lines (which
re-ranging preserves, rangeModel_total) equals the first response's. -/
theorem c9_cached_rerange_no_rescan (scan : QueryArgsM → QueryResponse)
    (cache : Option (QueryArgsM × QueryResponse)) (q1 q2 lq : QueryArgsM)
    (r1 lr : QueryResponse) (n1 : Nat) (c1 : Option (QueryArgsM × QueryResponse))
    (hstep : stepQuery scan cache q1 = (n1, some r1, c1))
    (hc1 : c1 = some (lq, lr))
    (hcols : q2.cols = q1.cols) (hfil : q2.filter = q1.filter)
    (hfile : q2.log_file = q1.log_file) :
    stepQuery scan c1 q2 =
      (0, rangeModel lr q2.fromRow (q2.toRow.getD lr.total_display_lines), c1) ∧
    lr.total_display_lines = r1.total_display_lines := by
  subst hc1
  cases cache with
  | none =>
    simp only [stepQuery, scanBranch] at hstep
    injection hstep with hn hrest
    injection hrest with hr hc
    injection hc with hpair
    have hq : q1 = lq := congrArg Prod.fst hpair
    have hlr : scan q1 = lr := congrArg Prod.snd hpair
    constructor
    · simp only [stepQuery]
      rw [if_pos ⟨hq ▸ hcols, hq ▸ hfil, hq ▸ hfile⟩]
    · rw [← hlr, ← rangeModel_total (scan q1) q1.fromRow
        (q1.toRow.getD (scan q1).total_display_lines) r1 hr]
  | some lp =>
    obtain ⟨lq0, lr0⟩ := lp
    simp only [stepQuery, scanBranch] at hstep
    by_cases hmatch : q1.cols = lq0.cols ∧ q1.filter = lq0.filter ∧ q1.log_file = lq0.log_file
    · rw [if_pos hmatch] at hstep
      injection hstep with hn hrest
      injection hrest with hr hc
      injection hc with hpair
      have hq : lq0 = lq := congrArg Prod.fst hpair
      have hlr : lr0 = lr := congrArg Prod.snd hpair
      constructor
      · simp only [stepQuery]
        rw [if_pos ⟨hq ▸ (hcols.trans hmatch.1), hq ▸ (hfil.trans hmatch.2.1),
          hq ▸ (hfile.trans hmatch.2.2)⟩]
      · rw [← hlr, ← rangeModel_total lr0 q1.fromRow
          (q1.toRow.getD lr0.total_display_lines) r1 (hlr ▸ hr)]
    · rw [if_neg hmatch] at hstep
      injection hstep with hn hrest
      injection hrest with hr hc
      injection hc with hpair
      have hq : q1 = lq := congrArg Prod.fst hpair
      have hlr : scan q1 = lr := congrArg Prod.snd hpair
      constructor
      · simp only [stepQuery]
        rw [if_pos ⟨hq ▸ hcols, hq ▸ hfil, hq ▸ hfile⟩]
      · rw [← hlr, ← rangeModel_total (scan q1) q1.fromRow
          (q1.toRow.getD (scan q1).total_display_lines) r1 hr]

/-- C9 witness: a concrete two-request session.  The scan oracle returns a
two-row result; the first request (rows 0..) scans once and fills the cache;
the second request (rows 1..2), identical in cols/filter/file, is served
from the cache with zero scans, the cache unchanged and the same total. -/
theorem c9_cached_rerange_witness :
    stepQuery (fun _ => ⟨2, [⟨0, none, none, []⟩, ⟨1, none, none, []⟩], 0⟩) none
        ⟨80, none, "app.log", 0, none⟩ =
      (1, some ⟨2, [⟨0, none, none, []⟩, ⟨1, none, none, []⟩], 0⟩,
       some (⟨80, none, "app.log", 0, none⟩,
             ⟨2, [⟨0, none, none, []⟩, ⟨1, none, none, []⟩], 0⟩)) ∧
    (stepQuery (fun _ => ⟨2, [⟨0, none, none, []⟩, ⟨1, none, none, []⟩], 0⟩)
        (some (⟨80, none, "app.log", 0, none⟩,
               ⟨2, [⟨0, none, none, []⟩, ⟨1, none, none, []⟩], 0⟩))
        ⟨80, none, "app.log", 1, some 2⟩ =
      (0, rangeModel ⟨2, [⟨0, none, none, []⟩, ⟨1, none, none, []⟩], 0⟩ 1
            ((some 2).getD 2),
       some (⟨80, none, "app.log", 0, none⟩,
             ⟨2, [⟨0, none, none, []⟩, ⟨1, none, none, []⟩], 0⟩)) ∧
      (2 : Nat) = 2) :=
  ⟨rfl,
   c9_cached_rerange_no_rescan
     (fun _ => ⟨2, [⟨0, none, none, []⟩, ⟨1, none, none, []⟩], 0⟩) none
     ⟨80, none, "app.log", 0, none⟩ ⟨80, none, "app.log", 1, some 2⟩
     ⟨80, none, "app.log", 0, none⟩
     ⟨2, [⟨0, none, none, []⟩, ⟨1, none, none, []⟩], 0⟩
     ⟨2, [⟨0, none, none, []⟩, ⟨1, none, none, []⟩], 0⟩
     1 (some (⟨80, none, "app.log", 0, none⟩,
              ⟨2, [⟨0, none, none, []⟩, ⟨1, none, none, []⟩], 0⟩))
     rfl rfl rfl rfl rfl⟩

/-- split_once(" ") decomposition: the pieces rebuild the text. -/
theorem splitFirstSpace_append :
    ∀ (t a b : List Grapheme), splitFirstSpace t = some (a, b) →
      a ++ Grapheme.space :: b = t := by
  intro t
  induction t with
  | nil => intro a b h; cases h
  | cons g tl ih =>
    intro a b h
    unfold splitFirstSpace at h
    by_cases hg : g = Grapheme.space
    · rw [if_pos hg] at h
      injection h with h'
      have ha : ([] : List Grapheme) = a := congrArg Prod.fst h'
      have hb : tl = b := congrArg Prod.snd h'
      rw [← ha, ← hb, hg]
      rfl
    · rw [if_neg hg] at h
      cases hsp : splitFirstSpace tl with
      | none => rw [hsp] at h; cases h
      | some p =>
        obtain ⟨l, r⟩ := p
        rw [hsp] at h
        injection h with h'
        have ha : g :: l = a := congrArg Prod.fst h'
        have hb : r = b := congrArg Prod.snd h'
        rw [← ha, ← hb]
        have := ih l r hsp
        simp [← this]

/-- split_soft_once decomposition: the three pieces rebuild the span text. -/
theorem splitSoftOnce_text (s l m r : Span)
    (h : splitSoftOnce s = some (l, m, r)) :
    l.text ++ m.text ++ r.text = s.text := by
  unfold splitSoftOnce at h
  cases hsp : splitFirstSpace s.text with
  | none => rw [hsp] at h; cases h
  | some p =>
    obtain ⟨a, b⟩ := p
    rw [hsp] at h
    injection h with h'
    have hl : (⟨a, s.label⟩ : Span) = l := congrArg Prod.fst h'
    have hmr := congrArg Prod.snd h'
    have hm : (⟨[Grapheme.space], s.label⟩ : Span) = m := congrArg Prod.fst hmr
    have hr : (⟨b, s.label⟩ : Span) = r := congrArg Prod.snd hmr
    rw [← hl, ← hm, ← hr]
    have := splitFirstSpace_append s.text a b hsp
    simpa using this

/-- split_at success facts: the pieces rebuild the text and the left piece's
display width is within the requested width. -/
theorem splitAtG_ok (s : Span) (k : Nat) (l r : Span)
    (h : splitAtG s k = .ok (l, r)) :
    l.text ++ r.text = s.text ∧ textWidth l.text ≤ k := by
  unfold splitAtG at h
  split at h
  · injection h with h'
    have hl : (⟨[], s.label⟩ : Span) = l := congrArg Prod.fst h'
    have hr : s = r := congrArg Prod.snd h'
    rw [← hl, ← hr]
    exact ⟨rfl, by simp [textWidth]⟩
  · split at h
    · cases h
    · injection h with h'
      have hl : (⟨s.text.take k, s.label⟩ : Span) = l := congrArg Prod.fst h'
      have hr : (⟨s.text.drop k, s.label⟩ : Span) = r := congrArg Prod.snd h'
      rw [← hl, ← hr]
      constructor
      · exact List.take_append_drop k s.text
      · show textWidth (s.text.take k) ≤ k
        omega

/-- push_line preserves the column budget. -/
theorem pushLine_cols (st : BState) : (pushLine st).cols = st.cols := rfl

/-- push_line rearranges but does not change the absorbed text. -/
theorem pushLine_allText (st : BState) : allText (pushLine st) = allText st := by
  unfold allText pushLine rowsText pendText rowText
  simp

/-- push_line preserves the builder invariant. -/
theorem pushLine_inv (st : BState) (h : BInv st) : BInv (pushLine st) := by
  obtain ⟨h1, h2, h3⟩ := h
  refine ⟨by simp [pushLine, spansWidth], by simp [pushLine], ?_⟩
  intro dl hdl
  simp only [pushLine, List.mem_append, List.mem_singleton] at hdl
  rcases hdl with hdl | hdl
  · exact h3 dl hdl
  · rw [hdl]
    simpa [← h1] using h2

/-- spansWidth distributes over append. -/
theorem spansWidth_append (l1 l2 : List Span) :
    spansWidth (l1 ++ l2) = spansWidth l1 + spansWidth l2 := by
  simp [spansWidth]

/-- Appending a span to the pending row appends its text to the absorbed text. -/
theorem allText_push_pending (st : BState) (l : Span) :
    allText { st with spans := st.spans ++ [l] } = allText st ++ l.text := by
  simp [allText, pendText, List.append_assoc]

/-- Likewise when the width counter is also updated. -/
theorem allText_push_pending_w (st : BState) (l : Span) (w : Nat) :
    allText { st with cumWidth := w, spans := st.spans ++ [l] } = allText st ++ l.text := by
  simp [allText, pendText, rowsText, List.append_assoc]

/-- The appended state of the fits branch keeps the invariant. -/
theorem append_inv (st : BState) (s : Span)
    (hle : st.cumWidth + textWidth s.text ≤ st.cols) (h : BInv st) :
    BInv { st with cumWidth := st.cumWidth + textWidth s.text,
                   spans := st.spans ++ [s] } := by
  obtain ⟨h1, h2, h3⟩ := h
  refine ⟨?_, hle, h3⟩
  show st.cumWidth + textWidth s.text = spansWidth (st.spans ++ [s])
  rw [spansWidth_append, ← h1]
  simp [spansWidth]

/-- Flushing the pending row extended by a hard-break left piece whose width
fits the remaining budget keeps the invariant. -/
theorem hardflush_inv (st : BState) (l : Span)
    (hwl : textWidth l.text ≤ st.cols - st.cumWidth) (h : BInv st) :
    BInv (pushLine { st with spans := st.spans ++ [l] }) := by
  obtain ⟨h1, h2, h3⟩ := h
  refine ⟨by simp [pushLine, spansWidth], by simp [pushLine], ?_⟩
  intro dl hdl
  simp only [pushLine, List.mem_append, List.mem_singleton] at hdl
  rcases hdl with hdl | hdl
  · exact h3 dl hdl
  · rw [hdl]
    show spansWidth (st.spans ++ [l]) ≤ st.cols
    rw [spansWidth_append]
    have : spansWidth [l] = textWidth l.text := by simp [spansWidth]
    omega

/-- The push_span step property: a successful push preserves the column
budget, preserves the builder invariant, and appends exactly the span's
text to the absorbed text — provided the recursive occurrences do. -/
theorem pushSpanF_main (rec : BState → Span → Option (Except String BState))
    (hrec : ∀ st s st', rec st s = some (.ok st') →
      st'.cols = st.cols ∧ (BInv st → BInv st') ∧ allText st' = allText st ++ s.text) :
    ∀ st s st', pushSpanF rec st s = some (.ok st') →
      st'.cols = st.cols ∧ (BInv st → BInv st') ∧ allText st' = allText st ++ s.text := by
  intro st s st' h
  unfold pushSpanF at h
  split at h
  · -- empty span: no-op
    next hemp =>
    injection h with h1
    injection h1 with h2
    subst h2
    refine ⟨rfl, fun hi => hi, ?_⟩
    rw [List.isEmpty_iff.mp hemp, List.append_nil]
  · next hemp =>
    split at h
    · -- the span does not fit the remaining row width
      next hover =>
      split at h
      · -- soft break into (l, whitespace, r), each re-pushed
        next l m r hsoft =>
        split at h
        · next st1 hl =>
          split at h
          · next st2 hm =>
            obtain ⟨hc1, hi1, ht1⟩ := hrec st l st1 hl
            obtain ⟨hc2, hi2, ht2⟩ := hrec st1 m st2 hm
            obtain ⟨hc3, hi3, ht3⟩ := hrec st2 r st' h
            refine ⟨hc3.trans (hc2.trans hc1), fun hi => hi3 (hi2 (hi1 hi)), ?_⟩
            rw [ht3, ht2, ht1, ← splitSoftOnce_text s l m r hsoft]
            simp [List.append_assoc]
          · next o ho hne =>
            exact absurd h (hne st')
        · next o ho hne =>
          exact absurd h (hne st')
      · -- no soft break point
        next hsoft =>
        split at h
        · -- hard break
          next hwide =>
          split at h
          · next e hsplit =>
            injection h with h1
            injection h1
          · next l r hsplit =>
            obtain ⟨happ, hwl⟩ := splitAtG_ok s (st.cols - st.cumWidth) l r hsplit
            split at h
            · -- empty left piece: flush current row, re-push the remainder
              next hlemp =>
              obtain ⟨hc, hi, ht⟩ := hrec (pushLine st) r st' h
              refine ⟨hc.trans (pushLine_cols st), fun hinv => hi (pushLine_inv st hinv), ?_⟩
              rw [ht, pushLine_allText, ← happ, List.isEmpty_iff.mp hlemp, List.nil_append]
            · -- nonempty left piece joins the flushed row
              next hlemp =>
              obtain ⟨hc, hi, ht⟩ := hrec (pushLine { st with spans := st.spans ++ [l] }) r st' h
              refine ⟨hc, fun hinv => hi (hardflush_inv st l hwl hinv), ?_⟩
              rw [ht, pushLine_allText, allText_push_pending, ← happ, List.append_assoc]
        · -- fits a fresh row: flush and re-push
          next hwide =>
          obtain ⟨hc, hi, ht⟩ := hrec (pushLine st) s st' h
          exact ⟨hc.trans (pushLine_cols st), fun hinv => hi (pushLine_inv st hinv),
            by rw [ht, pushLine_allText]⟩
    · -- the span fits the remaining row width
      next hover =>
      have hle : st.cumWidth + textWidth s.text ≤ st.cols := Nat.le_of_not_lt hover
      split at h
      · -- exactly fills the row: append and flush
        next heq =>
        injection h with h1
        injection h1 with h2
        subst h2
        refine ⟨rfl, fun hi => pushLine_inv _ (append_inv st s hle hi), ?_⟩
        rw [pushLine_allText, allText_push_pending_w]
      · -- still room: just append
        next heq =>
        injection h with h1
        injection h1 with h2
        subst h2
        exact ⟨rfl, fun hi => append_inv st s hle hi, allText_push_pending_w st s _⟩

/-- The push_span step property at every fuel. -/
theorem pushSpan_main : ∀ (fuel : Nat) (st : BState) (s : Span) (st' : BState),
    pushSpan fuel st s = some (.ok st') →
      st'.cols = st.cols ∧ (BInv st → BInv st') ∧ allText st' = allText st ++ s.text := by
  intro fuel
  induction fuel with
  | zero => intro st s st' h; cases h
  | succ fuel ih => exact pushSpanF_main (pushSpan fuel) ih

/-- The push_span step property for a list of spans: the texts of all pushed
spans are appended in order. -/
theorem pushList_main : ∀ (sl : List Span) (fuel : Nat) (st st' : BState),
    pushList fuel st sl = some (.ok st') →
      st'.cols = st.cols ∧ (BInv st → BInv st') ∧
      allText st' = allText st ++ (sl.map (fun s => s.text)).flatten := by
  intro sl
  induction sl with
  | nil =>
    intro fuel st st' h
    injection h with h1
    injection h1 with h2
    subst h2
    exact ⟨rfl, fun hi => hi, by simp⟩
  | cons s rest ih =>
    intro fuel st st' h
    unfold pushList at h
    split at h
    · next st1 hps =>
      obtain ⟨hc1, hi1, ht1⟩ := pushSpan_main fuel st s st1 hps
      obtain ⟨hc2, hi2, ht2⟩ := ih fuel st1 st' h
      refine ⟨hc2.trans hc1, fun hi => hi2 (hi1 hi), ?_⟩
      rw [ht2, ht1]
      simp [List.append_assoc]
    · next o hne =>
      exact absurd h (hne st')

/-- build returns exactly the absorbed text, flushed rows first. -/
theorem buildLines_rowsText (st : BState) : rowsText (buildLines st) = allText st := by
  unfold buildLines
  split
  · next hemp =>
    unfold allText pendText
    rw [List.isEmpty_iff.mp hemp]
    simp
  · next hemp =>
    unfold pushLine allText rowsText pendText rowText
    simp

/-- Under the invariant, every row build returns fits the column budget. -/
theorem buildLines_width (st : BState) (h : BInv st) :
    ∀ dl ∈ buildLines st, spansWidth dl.spans ≤ st.cols := by
  obtain ⟨h1, h2, h3⟩ := h
  intro dl hdl
  unfold buildLines at hdl
  split at hdl
  · exact h3 dl hdl
  · simp only [pushLine, List.mem_append, List.mem_singleton] at hdl
    rcases hdl with hdl | hdl
    · exact h3 dl hdl
    · rw [hdl]
      show spansWidth st.spans ≤ st.cols
      omega

/-- A successful contF run ends in a builder state with the same column
budget, the invariant preserved, and the rows equal to its build. -/
theorem contF_ok_state (fuel : Nat) (filter : Option RegexM) (st : BState)
    (rem : List Grapheme) (rows : List DisplayLine)
    (h : contF fuel filter st rem = some (.ok (some rows))) :
    ∃ st', st'.cols = st.cols ∧ (BInv st → BInv st') ∧ rows = buildLines st' := by
  unfold contF at h
  split at h
  · -- a filter is present
    split at h
    · simp at h
    · split at h
      · next st1 hpl =>
        injection h with h1
        injection h1 with h2
        injection h2 with h3
        obtain ⟨hc, hi, _⟩ := pushList_main _ fuel st st1 hpl
        exact ⟨st1, hc, hi, h3.symm⟩
      · next e hpl => simp at h
      · cases h
  · -- no filter
    split at h
    · next st1 hps =>
      injection h with h1
      injection h1 with h2
      injection h2 with h3
      obtain ⟨hc, hi, _⟩ := pushSpan_main fuel st _ st1 hps
      exact ⟨st1, hc, hi, h3.symm⟩
    · next e hps => simp at h
    · cases h

/-- With no filter, a successful contF run's rows spell the absorbed text
followed by the residual text. -/
theorem contF_none_text (fuel : Nat) (st : BState) (rem : List Grapheme)
    (rows : List DisplayLine)
    (h : contF fuel none st rem = some (.ok (some rows))) :
    rowsText rows = allText st ++ rem := by
  unfold contF at h
  split at h
  · next f hf => cases hf
  · split at h
    · next st1 hps =>
      injection h with h1
      injection h1 with h2
      injection h2 with h3
      obtain ⟨_, _, ht⟩ := pushSpan_main fuel st (mkText rem) st1 hps
      rw [← h3, buildLines_rowsText, ht]
      rfl
    · next e hps => simp at h
    · cases h

/-- tag consumes a prefix: consumed ++ rest = input. -/
theorem tagP_append (t inp c r : List Grapheme) (h : tagP t inp = some (c, r)) :
    c ++ r = inp := by
  unfold tagP at h
  split at h
  · injection h with h1
    have hc : inp.take t.length = c := congrArg Prod.fst h1
    have hr : inp.drop t.length = r := congrArg Prod.snd h1
    rw [← hc, ← hr]
    exact List.take_append_drop _ _
  · cases h

/-- multispace1 consumes a prefix. -/
theorem multispace1P_append (inp c r : List Grapheme)
    (h : multispace1P inp = some (c, r)) : c ++ r = inp := by
  unfold multispace1P at h
  split at h
  · cases h
  · injection h with h1
    have hc : inp.takeWhile isWsG = c := congrArg Prod.fst h1
    have hr : inp.dropWhile isWsG = r := congrArg Prod.snd h1
    rw [← hc, ← hr]
    exact List.takeWhile_append_dropWhile _ _


/-- take_until consumes a prefix. -/
theorem takeUntilTag_append (g : Grapheme) (inp c r : List Grapheme)
    (h : takeUntilTag g inp = some (c, r)) : c ++ r = inp := by
  unfold takeUntilTag at h
  split at h
  · cases h
  · injection h with h1
    have hc : inp.takeWhile (fun x => !(x == g)) = c := congrArg Prod.fst h1
    have hr : inp.dropWhile (fun x => !(x == g)) = r := congrArg Prod.snd h1
    rw [← hc, ← hr]
    exact List.takeWhile_append_dropWhile _ _

/-- The level alternation consumes a prefix. -/
theorem levelP_append (inp c : List Grapheme) (code : Nat) (r : List Grapheme)
    (h : levelP inp = some (c, code, r)) : c ++ r = inp := by
  unfold levelP at h
  split at h
  · next c0 r0 heq =>
    injection h with h1
    have hc : c0 = c := congrArg Prod.fst h1
    have hr : r0 = r := congrArg (fun p => p.2.2) h1
    rw [← hc, ← hr]
    exact tagP_append _ _ _ _ heq
  · split at h
    · next c0 r0 heq =>
      injection h with h1
      have hc : c0 = c := congrArg Prod.fst h1
      have hr : r0 = r := congrArg (fun p => p.2.2) h1
      rw [← hc, ← hr]
      exact tagP_append _ _ _ _ heq
    · split at h
      · next c0 r0 heq =>
        injection h with h1
        have hc : c0 = c := congrArg Prod.fst h1
        have hr : r0 = r := congrArg (fun p => p.2.2) h1
        rw [← hc, ← hr]
        exact tagP_append _ _ _ _ heq
      · split at h
        · next c0 r0 heq =>
          injection h with h1
          have hc : c0 = c := congrArg Prod.fst h1
          have hr : r0 = r := congrArg (fun p => p.2.2) h1
          rw [← hc, ← hr]
          exact tagP_append _ _ _ _ heq
        · split at h
          · next c0 r0 heq =>
            injection h with h1
            have hc : c0 = c := congrArg Prod.fst h1
            have hr : r0 = r := congrArg (fun p => p.2.2) h1
            rw [← hc, ← hr]
            exact tagP_append _ _ _ _ heq
          · cases h

/-- The datetime parse consumes a prefix. -/
theorem parseDatetime_append (inp c : List Grapheme) (dt : DT) (r : List Grapheme)
    (h : parseDatetime inp = some (c, dt, r)) : c ++ r = inp := by
  unfold parseDatetime at h
  split at h
  · cases h
  · next dt0 rest0 heq =>
    injection h with h1
    have hc : inp.take (inp.length - rest0.length) = c := congrArg Prod.fst h1
    have hr : inp.drop (inp.length - rest0.length) = r := congrArg (fun p => p.2.2) h1
    rw [← hc, ← hr]
    exact List.take_append_drop _ _

/-- The whole header grammar consumes a prefix: the seven consumed pieces
followed by the residual text rebuild the input line. -/
theorem headerParse_append (line : List Grapheme) (h : Header) (rem : List Grapheme)
    (hp : headerParse line = some (h, rem)) :
    h.lb ++ h.tsc ++ h.w1 ++ h.llc ++ h.w2 ++ h.tgt ++ h.rb ++ rem = line := by
  unfold headerParse at hp
  split at hp
  · cases hp
  · next lb r1 htag1 =>
    split at hp
    · cases hp
    · next tsc dt r2 hdt =>
      split at hp
      · cases hp
      · next w1 r3 hms1 =>
        split at hp
        · cases hp
        · next llc code r4 hlv =>
          split at hp
          · cases hp
          · next w2 r5 hms2 =>
            split at hp
            · cases hp
            · next tgt r6 htu =>
              split at hp
              · cases hp
              · next rb rem0 htag2 =>
                injection hp with h1
                have hh : (⟨lb, tsc, w1, llc, w2, tgt, rb, code, dt⟩ : Header) = h :=
                  congrArg Prod.fst h1
                have hrem : rem0 = rem := congrArg Prod.snd h1
                have e1 : lb ++ r1 = line := tagP_append _ _ _ _ htag1
                have e2 : tsc ++ r2 = r1 := parseDatetime_append _ _ _ _ hdt
                have e3 : w1 ++ r3 = r2 := multispace1P_append _ _ _ hms1
                have e4 : llc ++ r4 = r3 := levelP_append _ _ _ _ hlv
                have e5 : w2 ++ r5 = r4 := multispace1P_append _ _ _ hms2
                have e6 : tgt ++ r6 = r5 := takeUntilTag_append _ _ _ _ htu
                have e7 : rb ++ rem0 = r6 := tagP_append _ _ _ _ htag2
                rw [← hh, ← hrem]
                show lb ++ tsc ++ w1 ++ llc ++ w2 ++ tgt ++ rb ++ rem0 = line
                rw [← e1, ← e2, ← e3, ← e4, ← e5, ← e6, ← e7]
                simp [List.append_assoc]

/-- A successful parse_log_line run ends in a builder state with the
requested column budget, the invariant holding, and the rows its build. -/
theorem parseLogLine_state (fuel lln cols : Nat) (line : List Grapheme)
    (filter : Option RegexM) (rows : List DisplayLine)
    (hp : parseLogLine fuel lln cols line filter = some (.ok (some rows))) :
    ∃ st', st'.cols = cols ∧ BInv st' ∧ rows = buildLines st' := by
  have hinit : BInv (initB lln cols) :=
    ⟨rfl, Nat.zero_le _, by intro dl hdl; cases hdl⟩
  unfold parseLogLine at hp
  split at hp
  · obtain ⟨st', hc, hi, hr⟩ := contF_ok_state fuel filter (initB lln cols) line rows hp
    exact ⟨st', by rw [hc]; rfl, hi hinit, hr⟩
  · next hd rem hhdr =>
    split at hp
    · simp at hp
    · next t hconv =>
      split at hp
      · next st1 hpl =>
        obtain ⟨st', hc, hi, hr⟩ := contF_ok_state fuel filter st1 rem rows hp
        obtain ⟨hc1, hi1, _⟩ := pushList_main _ fuel _ st1 hpl
        refine ⟨st', ?_, ?_, hr⟩
        · rw [hc, hc1]
          rfl
        · apply hi
          apply hi1
          exact ⟨rfl, Nat.zero_le _, by intro dl hdl; cases hdl⟩
      · next e hpl => simp at hp
      · cases hp

/-- C7: every DisplayLine a successful parse_log_line produces has total
span display width within the column budget; the only rows the claim allows
to exceed it (a single unbreakable cluster wider than the budget) in fact
never occur, because split_at errors out instead of emitting such a row —
the left disjunct holds for every row. -/
theorem c7_display_line_width_bound (fuel lln cols : Nat) (line : List Grapheme)
    (filter : Option RegexM) (rows : List DisplayLine)
    (hp : parseLogLine fuel lln cols line filter = some (.ok (some rows))) :
    ∀ dl ∈ rows, spansWidth dl.spans ≤ cols ∨
      (∃ g, rowText dl = [g] ∧ cols < gwidth g) := by
  obtain ⟨st', hc, hinv, hr⟩ := parseLogLine_state fuel lln cols line filter rows hp
  intro dl hdl
  left
  rw [hr] at hdl
  have := buildLines_width st' hinv dl hdl
  rwa [hc] at this

/-- C7 witness: the width bound at the concrete line "ab cd" wrapped at 5
columns, which produces one exactly-full row. -/
theorem c7_width_bound_witness :
    spansWidth (⟨0, none, none, [mkText (asciiText "ab cd")]⟩ : DisplayLine).spans ≤ 5 ∨
      (∃ g, rowText ⟨0, none, none, [mkText (asciiText "ab cd")]⟩ = [g] ∧ 5 < gwidth g) :=
  c7_display_line_width_bound 8 0 5 (asciiText "ab cd") none
    [⟨0, none, none, [mkText (asciiText "ab cd")]⟩] rfl
    ⟨0, none, none, [mkText (asciiText "ab cd")]⟩ (by simp)

/-- C6 counterexample: at the one-cluster line "字" (display width 2) and
column width 1, parse_log_line returns the hard-break error, so no
DisplayLines are produced at all and no concatenation can reproduce the
line — the round-trip fails for this line and width ≥ 1. -/
theorem c6_round_trip_counterexample :
    ¬ ∃ rows, parseLogLine 9 0 1 [Grapheme.other "字" 2] none =
        some (.ok (some rows)) ∧ rowsText rows = [Grapheme.other "字" 2] := by
  intro ⟨rows, hp, _⟩
  rw [show parseLogLine 9 0 1 [Grapheme.other "字" 2] none =
    some (.error "impossible to break span") from rfl] at hp
  simp at hp

/-- C6 amended: whenever wrapping a line with no filter succeeds (the builder
terminates without a layout error), concatenating the text of all spans of
all produced DisplayLines reproduces the original line exactly. -/
theorem c6_round_trip_amended (fuel lln cols : Nat) (line : List Grapheme)
    (rows : List DisplayLine)
    (hp : parseLogLine fuel lln cols line none = some (.ok (some rows))) :
    rowsText rows = line := by
  unfold parseLogLine at hp
  split at hp
  · rw [contF_none_text fuel (initB lln cols) line rows hp]
    simp [allText, rowsText, pendText, initB]
  · next hd rem hhdr =>
    split at hp
    · simp at hp
    · next t hconv =>
      split at hp
      · next st1 hpl =>
        have htext := contF_none_text fuel st1 rem rows hp
        obtain ⟨_, _, ht1⟩ := pushList_main (headerSpans hd) fuel _ st1 hpl
        have hcat := headerParse_append line hd rem hhdr
        rw [htext, ht1, ← hcat]
        simp [allText, rowsText, pendText, initB, headerSpans,
          mkNoise, mkTimestamp, mkLevel, mkTarget, List.append_assoc]
      · next e hpl => simp at hp
      · cases hp

/-- C6 witness: the amended round trip at the concrete line "ab cd" wrapped
at 3 columns (a soft break into two rows). -/
theorem c6_round_trip_witness :
    rowsText [⟨0, none, none, [mkText (asciiText "ab"), mkText (asciiText " ")]⟩,
              ⟨0, none, none, [mkText (asciiText "cd")]⟩] = asciiText "ab cd" :=
  c6_round_trip_amended 9 0 3 (asciiText "ab cd")
    [⟨0, none, none, [mkText (asciiText "ab"), mkText (asciiText " ")]⟩,
     ⟨0, none, none, [mkText (asciiText "cd")]⟩] rfl

/-- C3 witness: the amended claim at the concrete header line
"[2024-02-30T00:00:00Z INFO x] hi" (syntactically valid, February 30 fails
conversion): the one-line query errors out while the tail read returns Ok,
skipping the line but advancing position and line count. -/
theorem c3_ts_conv_witness :
    queryModel 9 80 none [asciiText "[2024-02-30T00:00:00Z INFO x] hi"] =
      some (.error "ts conv") ∧
    readTo 9 ⟨80, none, 0, 0⟩ (asciiText "[2024-02-30T00:00:00Z INFO x] hi" ++ [nlG])
        (byteLen (asciiText "[2024-02-30T00:00:00Z INFO x] hi") + 1) =
      some (.ok (⟨80, none,
        byteLen (asciiText "[2024-02-30T00:00:00Z INFO x] hi"), 1⟩, [])) :=
  ⟨(c3_ts_conv_query_aborts_tail_skips 9 80
      (asciiText "[2024-02-30T00:00:00Z INFO x] hi")
      ⟨asciiText "[", asciiText "2024-02-30T00:00:00Z", [Grapheme.space],
       asciiText "INFO", [Grapheme.space], asciiText "x", asciiText "]", 2,
       ⟨2024, 2, 30, 0, 0, 0, 0⟩⟩
      (asciiText " hi") rfl rfl rfl rfl).1 [],
   (c3_ts_conv_query_aborts_tail_skips 9 80
      (asciiText "[2024-02-30T00:00:00Z INFO x] hi")
      ⟨asciiText "[", asciiText "2024-02-30T00:00:00Z", [Grapheme.space],
       asciiText "INFO", [Grapheme.space], asciiText "x", asciiText "]", 2,
       ⟨2024, 2, 30, 0, 0, 0, 0⟩⟩
      (asciiText " hi") rfl rfl rfl rfl).2⟩
